import Mathlib

/-!
Shallow embedding of the Clarity contract
`romeo/asset-contract/contracts/clarity-bitcoin-mini.clar` (sBTC developer
release), together with proofs about its header and Merkle-proof
verification functions.

Modelling conventions:
* A Clarity `(buff n)` value is a `List Nat` of bytes; the Clarity type
  only bounds the length from above, so a `(buff 32)` argument may be
  shorter than 32 bytes.  Where a property needs a well-formed buffer the
  theorem carries `length` and `< 256` hypotheses.
* Clarity `uint` is a 128-bit natural.  Addition aborts (runtime error) on
  overflow, which we model with `Option`: `none` is an aborted execution
  (`unwrap-panic` on `none`, or arithmetic overflow); `some` is a value
  actually returned.
* `sha256` is an uninterpreted parameter `List Nat → List Nat`; every
  theorem holds for an arbitrary hash function, and concrete witnesses
  instantiate it with the executable `testHash` below.
* The contract is compiled with `DEBUG-MODE = true`, so
  `get-burn-block-header-hash` reads the `debug-burn-header-hashes` map,
  modelled as a function `Nat → Option (List Nat)`.
-/

set_option maxRecDepth 100000

namespace ClarityBtc

/-- Clarity `slice?`: the sub-sequence `[a, b)` of `l`, or `none` when the
bounds are out of range or crossed. -/
def slice {α : Type} (l : List α) (a b : Nat) : Option (List α) :=
  if a ≤ b ∧ b ≤ l.length then some ((l.drop a).take (b - a)) else none

/-- Clarity `as-max-len?`: the list itself when its length is at most `n`,
otherwise `none`. -/
def as_max_len {α : Type} (l : List α) (n : Nat) : Option (List α) :=
  if l.length ≤ n then some l else none

/-- Clarity `+` on `uint`: 128-bit checked addition, `none` on overflow
(the Clarity VM aborts the call). -/
def uadd (a b : Nat) : Option Nat :=
  if a + b < 2 ^ 128 then some (a + b) else none

/-- Clarity `buff-to-uint-le`: interpret a buffer as a little-endian
natural number (first byte least significant). -/
def buff_to_uint_le (l : List Nat) : Nat :=
  l.foldr (fun b acc => b + 256 * acc) 0

/-- The 16 bytes of `n` in big-endian order (most significant first). -/
def uint_to_be16 (n : Nat) : List Nat :=
  (List.range 16).map (fun j => n / 256 ^ (15 - j) % 256)

/-- Clarity `to-consensus-buff?` on a `uint`: a `0x01` type tag followed by
the 16-byte big-endian value. -/
def to_consensus_buff_uint (n : Nat) : List Nat :=
  1 :: uint_to_be16 n

/-- Contract `reverse-buff16`: round-trip the buffer through
`buff-to-uint-le` and the consensus serialization, dropping the type tag
(`slice? ... u1 u17`). -/
def reverse_buff16 (input : List Nat) : Option (List Nat) :=
  slice (to_consensus_buff_uint (buff_to_uint_le input)) 1 17

/-- Contract `reverse-buff32`: reverse the two 16-byte halves independently
and concatenate them in swapped order.  `none` models the `unwrap-panic`
abort when `input` has fewer than 32 bytes. -/
def reverse_buff32 (input : List Nat) : Option (List Nat) := do
  let hi ← slice input 16 32
  let hi16 ← as_max_len hi 16
  let rhi ← reverse_buff16 hi16
  let lo ← slice input 0 16
  let lo16 ← as_max_len lo 16
  let rlo ← reverse_buff16 lo16
  as_max_len (rhi ++ rlo) 32

/-- Contract `get-burn-block-header-hash` with `DEBUG-MODE = true`: a map
lookup in `debug-burn-header-hashes`, modelled by the function `hh`. -/
def get_burn_block_header_hash (hh : Nat → Option (List Nat)) (burn_height : Nat) :
    Option (List Nat) :=
  hh burn_height

/-- Contract `verify-block-header`: compare the recorded hash at the
claimed height with `reverse-buff32 (sha256 (sha256 header))`.  `none`
models the abort inside `reverse-buff32` when the double hash is shorter
than 32 bytes (impossible for the real `sha256`). -/
def verify_block_header (sha256 : List Nat → List Nat) (hh : Nat → Option (List Nat))
    (header : List Nat) (expected_block_height : Nat) : Option Bool :=
  (reverse_buff32 (sha256 (sha256 header))).map
    (fun rh => decide (get_burn_block_header_hash hh expected_block_height = some rh))

/-- Contract `is-bit-set`: `(> (bit-and val (bit-shift-left u1 bit)) u0)`;
`bit-shift-left` wraps modulo `2 ^ 128`. -/
def is_bit_set (val bit : Nat) : Bool :=
  decide (val &&& (1 <<< bit % 2 ^ 128) > 0)

/-- State record folded over by `inner-merkle-proof-verify`. -/
structure MerkleState where
  path : Nat
  root_hash : List Nat
  proof_hashes : List (List Nat)
  cur_hash : List Nat
  verified : Bool
  deriving DecidableEq

/-- Contract `inner-merkle-proof-verify`: one step of the Merkle walk.
`element-at proof-hashes ctr` is modelled with `getD` (the `ctr < length`
guard makes the `unwrap-panic` unreachable). -/
def inner_merkle_proof_verify (sha256 : List Nat → List Nat) (ctr : Nat)
    (state : MerkleState) : MerkleState :=
  if state.verified then state
  else if state.proof_hashes.length ≤ ctr then { state with verified := false }
  else
    let is_left := is_bit_set state.path ctr
    let sib := state.proof_hashes.getD ctr []
    let h1 := if is_left then sib else state.cur_hash
    let h2 := if is_left then state.cur_hash else sib
    let next_hash := sha256 (sha256 (h1 ++ h2))
    let is_verified :=
      decide (ctr + 1 = state.proof_hashes.length) && decide (next_hash = state.root_hash)
    { state with cur_hash := next_hash, verified := is_verified }

/-- Contract `verify-merkle-proof`: fold `inner-merkle-proof-verify` over
the counters `0, …, len hashes - 1` (a `slice?` of the literal list
`u0 … u13`), starting from path `2 ^ len hashes + tx-index`.  `none` models
the aborts: a hash list longer than the `(list 14 …)` type allows, or
overflow of the 128-bit path addition. -/
def verify_merkle_proof (sha256 : List Nat → List Nat)
    (reversed_txid merkle_root : List Nat) (tx_index : Nat)
    (hashes : List (List Nat)) : Option Bool :=
  let proof_length := hashes.length
  match slice (List.range 14) 0 proof_length, uadd (2 ^ proof_length) tx_index with
  | some ctrs, some path =>
      some (List.foldl (fun st ctr => inner_merkle_proof_verify sha256 ctr st)
        { path := path, root_hash := merkle_root, proof_hashes := hashes,
          cur_hash := reversed_txid, verified := false } ctrs).verified
  | _, _ => none

/-- Clarity `(response bool uint)` values returned by `was-txid-mined`. -/
inductive Response where
  | ok : Bool → Response
  | err : Nat → Response
  deriving DecidableEq

/-- Contract `was-txid-mined`: extract the Merkle root from bytes `[36, 68)`
of the header (`err u9` when the slice fails), check the header against the
recorded hash at `height` (`err u6`), then check the Merkle proof for the
reversed txid (`err u7`); `(ok true)` otherwise.  `none` models the aborts
(txid shorter than 32 bytes, path-addition overflow, bad hash output). -/
def was_txid_mined (sha256 : List Nat → List Nat) (hh : Nat → Option (List Nat))
    (height : Nat) (txid header : List Nat) (tx_index : Nat)
    (hashes : List (List Nat)) : Option Response :=
  match slice header 36 68 with
  | none => some (Response.err 9)
  | some s =>
      match as_max_len s 32 with
      | none => none
      | some merkle_root_reversed =>
          match verify_block_header sha256 hh header height with
          | none => none
          | some vb =>
              if vb = false then some (Response.err 6)
              else
                match reverse_buff32 txid with
                | none => none
                | some rtxid =>
                    match verify_merkle_proof sha256 rtxid merkle_root_reversed
                        tx_index hashes with
                    | none => none
                    | some vm =>
                        if vm then some (Response.ok true) else some (Response.err 7)

/-- Hash chain named by claim C1: `h_0` is the leaf and
`h_(i+1) = hash256 (h_i ++ hashes[i])` when bit `i` of `path` is 0,
`hash256 (hashes[i] ++ h_i)` when it is 1, with `hash256 = sha256 ∘ sha256`;
the value returned is `h_d` after consuming all the sibling hashes. -/
def merkle_climb (sha256 : List Nat → List Nat) (path : Nat) (cur : List Nat) :
    List (List Nat) → Nat → List Nat
  | [], _ => cur
  | sib :: rest, i =>
      merkle_climb sha256 path
        (if path.testBit i then sha256 (sha256 (sib ++ cur))
         else sha256 (sha256 (cur ++ sib))) rest (i + 1)

/-- Reference Merkle verifier described by the spec (§4.4/§9): an explicit
loop over `(sibling, is_left)` pairs.  When the pairs are exhausted the
current hash is compared with the root; an empty proof therefore compares
the leaf directly with the root. -/
def ref_loop (sha256 : List Nat → List Nat) (root : List Nat) :
    List Nat → List (List Nat × Bool) → Bool
  | cur, [] => decide (cur = root)
  | cur, (sib, is_left) :: rest =>
      ref_loop sha256 root
        (if is_left then sha256 (sha256 (sib ++ cur))
         else sha256 (sha256 (cur ++ sib))) rest

/-- Pairs `(siblingHashes[i], bit i of leaf_index)` for `i = start, …`,
the explicit left/right walk of the spec's reference implementation. -/
def merkle_pairs (leaf_index : Nat) : List (List Nat) → Nat → List (List Nat × Bool)
  | [], _ => []
  | sib :: rest, i => (sib, leaf_index.testBit i) :: merkle_pairs leaf_index rest (i + 1)

/-- Spec §9 reference implementation of the Merkle verifier: an explicit
loop over `(sibling, is_left)` pairs derived from the leaf index. -/
def verify_merkle_proof_ref (sha256 : List Nat → List Nat)
    (leaf root : List Nat) (leaf_index : Nat) (hashes : List (List Nat)) : Bool :=
  ref_loop sha256 root leaf (merkle_pairs leaf_index hashes 0)

/-- Executable stand-in hash used by concrete witnesses: 32 bytes, each
below 256, depending on the whole input. -/
def testHash (l : List Nat) : List Nat :=
  (List.range 32).map (fun i => l.foldl (fun a b => (a * 31 + b + 1) % 251) i % 251)

/-- Concrete 32-byte buffer used by witnesses. -/
def exBuf32 : List Nat := (List.range 32).map (fun i => (7 * i + 3) % 256)

/-- Concrete 16-byte buffer used by witnesses. -/
def exBuf16 : List Nat := (List.range 16).map (fun i => (11 * i + 5) % 256)

/-- Concrete 32-byte sibling hash used by witnesses. -/
def exSib1 : List Nat := testHash [1]

/-- Second concrete 32-byte sibling hash. -/
def exSib2 : List Nat := testHash [2]

/-- Concrete 80-byte block header used by witnesses. -/
def exHeader80 : List Nat := (List.range 80).map (fun i => (3 * i + 1) % 256)

/-- Depth-2 Merkle root fixture: the hash chain from `exBuf32` with path
`2 ^ 2 + 0` through `exSib1`, `exSib2`. -/
def exRoot2 : List Nat := merkle_climb testHash 4 exBuf32 [exSib1, exSib2] 0

/-- Depth-1 Merkle root fixture for the overflow counterexample: the chain
from `exBuf32` with path `2 ^ 1 + (2 ^ 128 - 2) = 2 ^ 128`. -/
def exRootOvf : List Nat := merkle_climb testHash (2 ^ 128) exBuf32 [exSib1] 0

/-- Recorded header hash fixture: what the contract computes for
`exHeader80` under `testHash`. -/
def exRec : List Nat := (testHash (testHash exHeader80)).reverse

/-- Height-to-hash store fixture recording `exRec` at height 5 only. -/
def exStore : Nat → Option (List Nat) := fun n => if n = 5 then some exRec else none

/-- Height-to-hash store fixture that matches `exHeader80` at every
height. -/
def exStoreHdr : Nat → Option (List Nat) :=
  fun _ => reverse_buff32 (testHash (testHash exHeader80))

/-- Unfolding of `buff_to_uint_le` on a cons cell. -/
theorem buff_le_cons (b : Nat) (t : List Nat) :
    buff_to_uint_le (b :: t) = b + 256 * buff_to_uint_le t := rfl

/-- A buffer of bytes below 256 denotes a value below `256 ^ length`. -/
theorem buff_le_lt (l : List Nat) (h : ∀ b ∈ l, b < 256) :
    buff_to_uint_le l < 256 ^ l.length := by
  induction l with
  | nil => simp [buff_to_uint_le]
  | cons b t ih =>
      have hb : b < 256 := h b (by simp)
      have ht : buff_to_uint_le t < 256 ^ t.length := ih (fun x hx => h x (by simp [hx]))
      rw [buff_le_cons, List.length_cons, pow_succ]
      calc b + 256 * buff_to_uint_le t < 256 * (buff_to_uint_le t + 1) := by omega
        _ ≤ 256 * 256 ^ t.length := Nat.mul_le_mul_left _ (by omega)
        _ = 256 ^ t.length * 256 := Nat.mul_comm _ _

/-- Base-256 digit `i` of the little-endian denotation is byte `i`. -/
theorem buff_le_digit (l : List Nat) (h : ∀ b ∈ l, b < 256) :
    ∀ i, buff_to_uint_le l / 256 ^ i % 256 = l.getD i 0 := by
  induction l with
  | nil => intro i; simp [buff_to_uint_le]
  | cons b t ih =>
      intro i
      have hb : b < 256 := h b (by simp)
      cases i with
      | zero =>
          rw [buff_le_cons]
          simp only [pow_zero, Nat.div_one]
          rw [Nat.add_mul_mod_self_left, Nat.mod_eq_of_lt hb]
          rfl
      | succ i =>
          rw [buff_le_cons, pow_succ, Nat.mul_comm (256 ^ i) 256,
            ← Nat.div_div_eq_div_mul]
          have hdiv : (b + 256 * buff_to_uint_le t) / 256 = buff_to_uint_le t := by
            rw [Nat.add_mul_div_left _ _ (by norm_num : (0:Nat) < 256),
              Nat.div_eq_of_lt hb, Nat.zero_add]
          rw [hdiv, ih (fun x hx => h x (by simp [hx])) i]
          rfl

/-- Writing the little-endian denotation of a 16-byte buffer back in
big-endian order reverses the buffer. -/
theorem be16_le_reverse (l : List Nat) (hlen : l.length = 16)
    (h : ∀ b ∈ l, b < 256) :
    uint_to_be16 (buff_to_uint_le l) = l.reverse := by
  apply List.ext_getElem
  · simp [uint_to_be16, hlen]
  · intro j h1 h2
    have hj : j < 16 := by simpa [uint_to_be16] using h1
    simp only [uint_to_be16, List.getElem_map, List.getElem_range]
    rw [buff_le_digit l h (15 - j), List.getElem_reverse]
    have hidx : l.length - 1 - j = 15 - j := by omega
    simp only [hidx]
    rw [List.getD, List.get?_eq_getElem?,
      List.getElem?_eq_getElem (show 15 - j < l.length by omega), Option.getD_some]

/-- On an exactly-16-byte buffer `reverse-buff16` is list reversal. -/
theorem reverse_buff16_eq (l : List Nat) (hlen : l.length = 16)
    (h : ∀ b ∈ l, b < 256) :
    reverse_buff16 l = some l.reverse := by
  rw [reverse_buff16, to_consensus_buff_uint, be16_le_reverse l hlen h]
  have hr : l.reverse.length = 16 := by simp [hlen]
  rw [slice, if_pos (by simp [hr])]
  simp [List.take_of_length_le (le_of_eq hr)]

/-- On an exactly-32-byte buffer `reverse-buff32` is list reversal. -/
theorem reverse_buff32_eq (l : List Nat) (hlen : l.length = 32)
    (h : ∀ b ∈ l, b < 256) :
    reverse_buff32 l = some l.reverse := by
  have h1 : slice l 16 32 = some (l.drop 16) := by
    rw [slice, if_pos (by omega)]
    rw [List.take_of_length_le (by simp [hlen])]
  have h2 : slice l 0 16 = some (l.take 16) := by
    rw [slice, if_pos (by omega)]
    simp
  have e1 : as_max_len (l.drop 16) 16 = some (l.drop 16) := by
    rw [as_max_len, if_pos (by simp [hlen])]
  have e2 : reverse_buff16 (l.drop 16) = some (l.drop 16).reverse :=
    reverse_buff16_eq _ (by simp [hlen]) (fun b hb => h b (List.mem_of_mem_drop hb))
  have e3 : as_max_len (l.take 16) 16 = some (l.take 16) := by
    rw [as_max_len, if_pos (by simp)]
  have e4 : reverse_buff16 (l.take 16) = some (l.take 16).reverse :=
    reverse_buff16_eq _ (by simp [hlen]) (fun b hb => h b (List.mem_of_mem_take hb))
  have e5 : as_max_len ((l.drop 16).reverse ++ (l.take 16).reverse) 32 =
      some ((l.drop 16).reverse ++ (l.take 16).reverse) := by
    rw [as_max_len, if_pos (by simp [hlen])]
  simp only [reverse_buff32, h1, h2, e1, e2, e3, e4, e5, Option.bind_eq_bind,
    Option.some_bind]
  rw [← List.reverse_append, List.take_append_drop]

/-- C7: byte reversal is an involution: `reverse-buff32` applied twice to a
32-byte buffer, and `reverse-buff16` applied twice to a 16-byte buffer,
both give back the original buffer. -/
theorem reverse_buff_involution (x y : List Nat)
    (hx : x.length = 32) (hxb : ∀ b ∈ x, b < 256)
    (hy : y.length = 16) (hyb : ∀ b ∈ y, b < 256) :
    (reverse_buff32 x).bind reverse_buff32 = some x ∧
    (reverse_buff16 y).bind reverse_buff16 = some y := by
  constructor
  · rw [reverse_buff32_eq x hx hxb, Option.some_bind,
      reverse_buff32_eq x.reverse (by simp [hx])
        (fun b hb => hxb b (List.mem_reverse.mp hb)),
      List.reverse_reverse]
  · rw [reverse_buff16_eq y hy hyb, Option.some_bind,
      reverse_buff16_eq y.reverse (by simp [hy])
        (fun b hb => hyb b (List.mem_reverse.mp hb)),
      List.reverse_reverse]

/-- C7 witness: the involution at concrete 32- and 16-byte buffers. -/
theorem reverse_buff_involution_w :
    (reverse_buff32 exBuf32).bind reverse_buff32 = some exBuf32 ∧
    (reverse_buff16 exBuf16).bind reverse_buff16 = some exBuf16 :=
  reverse_buff_involution exBuf32 exBuf16 (by decide) (by decide) (by decide) (by decide)

/-- Every output of `testHash` has 32 bytes. -/
theorem testHash_length (l : List Nat) : (testHash l).length = 32 := by
  simp [testHash]

/-- Every byte of a `testHash` output is below 256. -/
theorem testHash_lt (l : List Nat) : ∀ b ∈ testHash l, b < 256 := by
  intro b hb
  simp only [testHash, List.mem_map] at hb
  obtain ⟨i, _, rfl⟩ := hb
  omega

/-- For bit positions below 128 (always the case for the fold counters,
which stay below 14) `is-bit-set` is `Nat.testBit`. -/
theorem is_bit_set_testBit (val bit : Nat) (hbit : bit < 128) :
    is_bit_set val bit = val.testBit bit := by
  rw [is_bit_set]
  have h1 : 1 <<< bit % 2 ^ 128 = 2 ^ bit := by
    rw [Nat.shiftLeft_eq, Nat.one_mul,
      Nat.mod_eq_of_lt (Nat.pow_lt_pow_right (by norm_num) hbit)]
  rw [h1, Nat.and_two_pow]
  cases h : val.testBit bit <;> simp [h]

/-- Element `j` of a list whose `j`-suffix starts with `sib` is `sib`. -/
theorem getElem?_of_drop (l : List (List Nat)) (j : Nat) (sib : List Nat)
    (rest : List (List Nat)) (hd : l.drop j = sib :: rest) :
    l[j]? = some sib := by
  have h0 := List.getElem?_drop l j 0
  rw [Nat.add_zero] at h0
  rw [← h0, hd]
  simp

/-- Invariant of the contract's fold: starting unverified at counter `j`
with the remaining sibling hashes `rest` (a nonempty suffix of the full
list), the fold ends verified exactly when the hash chain from the current
hash through `rest` reaches the root. -/
theorem fold_inner_verified (sha256 : List Nat → List Nat) (path : Nat)
    (root : List Nat) (hashes : List (List Nat)) (hcap : hashes.length ≤ 14) :
    ∀ (rest : List (List Nat)) (j : Nat) (cur : List Nat),
      j + rest.length = hashes.length →
      hashes.drop j = rest →
      rest ≠ [] →
      (List.foldl (fun st ctr => inner_merkle_proof_verify sha256 ctr st)
        { path := path, root_hash := root, proof_hashes := hashes,
          cur_hash := cur, verified := false } (List.range' j rest.length)).verified
      = decide (merkle_climb sha256 path cur rest j = root) := by
  intro rest
  induction rest with
  | nil => intro j cur _ _ hne; exact absurd rfl hne
  | cons sib rest ih =>
      intro j cur hsum hdrop _
      have hsum' : j + rest.length + 1 = hashes.length := by
        simp only [List.length_cons] at hsum
        omega
      have hj : j < hashes.length := by omega
      have hj128 : j < 128 := by omega
      have hnle : ¬ (hashes.length ≤ j) := by omega
      have hbs : is_bit_set path j = path.testBit j := is_bit_set_testBit path j hj128
      have hsib : hashes[j]? = some sib := getElem?_of_drop hashes j sib rest hdrop
      have hstep : inner_merkle_proof_verify sha256 j
          { path := path, root_hash := root, proof_hashes := hashes,
            cur_hash := cur, verified := false } =
          { path := path, root_hash := root, proof_hashes := hashes,
            cur_hash := (if path.testBit j then sha256 (sha256 (sib ++ cur))
              else sha256 (sha256 (cur ++ sib))),
            verified := decide (j + 1 = hashes.length) &&
              decide ((if path.testBit j then sha256 (sha256 (sib ++ cur))
                else sha256 (sha256 (cur ++ sib))) = root) } := by
        cases hb : path.testBit j <;>
          simp [inner_merkle_proof_verify, hnle, hbs, hb, hsib]
      rw [List.length_cons, List.range'_succ, List.foldl_cons, hstep]
      cases rest with
      | nil =>
          have hfin : j + 1 = hashes.length := by simpa using hsum'
          rw [decide_eq_true hfin, Bool.true_and]
          simp [List.range', merkle_climb]
      | cons r t =>
          have hne2 : ¬ (j + 1 = hashes.length) := by
            simp only [List.length_cons] at hsum'
            omega
          rw [decide_eq_false hne2, Bool.false_and]
          have hdrop2 : hashes.drop (j + 1) = r :: t := by
            have h1 : (hashes.drop j).drop 1 = r :: t := by rw [hdrop]; simp
            rw [← h1, List.drop_drop, Nat.add_comm]
          rw [ih (j + 1) _
            (by simp only [List.length_cons] at hsum' ⊢; omega) hdrop2 (by simp)]
          simp only [merkle_climb]

/-- Unfolding of `verify-merkle-proof` for a nonempty, type-respecting,
non-overflowing proof: the result is the fold invariant applied to the
whole hash list. -/
theorem verify_merkle_proof_eq_climb (sha256 : List Nat → List Nat)
    (leaf root : List Nat) (t : Nat) (hashes : List (List Nat))
    (h1 : 1 ≤ hashes.length) (h14 : hashes.length ≤ 14)
    (hov : 2 ^ hashes.length + t < 2 ^ 128) :
    verify_merkle_proof sha256 leaf root t hashes =
      some (decide (merkle_climb sha256 (2 ^ hashes.length + t) leaf hashes 0 = root)) := by
  have hs : slice (List.range 14) 0 hashes.length = some (List.range' 0 hashes.length) := by
    rw [slice, if_pos (by simp [h14])]
    rw [List.drop_zero, Nat.sub_zero, List.take_range, Nat.min_eq_left h14,
      List.range_eq_range']
  have hu : uadd (2 ^ hashes.length) t = some (2 ^ hashes.length + t) := by
    rw [uadd, if_pos hov]
  have hfold := fold_inner_verified sha256 (2 ^ hashes.length + t) root hashes h14
    hashes 0 leaf (by simp) (by simp) (by intro hnil; rw [hnil] at h1; simp at h1)
  simp only [verify_merkle_proof, hs, hu]
  rw [hfold]

/-- With an empty sibling list the fold never runs, so the initial
`verified: false` is returned whatever the leaf and root are. -/
theorem verify_merkle_proof_empty_aux (sha256 : List Nat → List Nat)
    (leaf root : List Nat) (t : Nat) (hov : 1 + t < 2 ^ 128) :
    verify_merkle_proof sha256 leaf root t [] = some false := by
  have hs : slice (List.range 14) 0 0 = some ([] : List Nat) := by
    rw [slice, if_pos (by simp)]
    simp
  have hu : uadd (2 ^ (0 : Nat)) t = some (1 + t) := by
    rw [uadd, pow_zero, if_pos hov]
  simp only [verify_merkle_proof, List.length_nil, hs, hu, List.foldl_nil]

/-- The hash chain only looks at path bits at the visited positions. -/
theorem merkle_climb_congr (sha256 : List Nat → List Nat) (p q : Nat) :
    ∀ (rest : List (List Nat)) (j : Nat) (cur : List Nat),
      (∀ i, j ≤ i → i < j + rest.length → p.testBit i = q.testBit i) →
      merkle_climb sha256 p cur rest j = merkle_climb sha256 q cur rest j := by
  intro rest
  induction rest with
  | nil => intro j cur _; rfl
  | cons sib rest ih =>
      intro j cur hbits
      simp only [merkle_climb]
      rw [hbits j le_rfl (by simp only [List.length_cons]; omega)]
      exact ih (j + 1) _
        (fun i hi1 hi2 => hbits i (by omega) (by simp only [List.length_cons]; omega))

/-- The spec's explicit loop over `(sibling, is_left)` pairs computes the
hash chain directed by the bits of the leaf index and compares it with the
root. -/
theorem ref_loop_eq_climb (sha256 : List Nat → List Nat) (root : List Nat) (li : Nat) :
    ∀ (rest : List (List Nat)) (j : Nat) (cur : List Nat),
      ref_loop sha256 root cur (merkle_pairs li rest j) =
        decide (merkle_climb sha256 li cur rest j = root) := by
  intro rest
  induction rest with
  | nil => intro j cur; simp [merkle_pairs, ref_loop, merkle_climb]
  | cons sib rest ih =>
      intro j cur
      simp only [merkle_pairs, ref_loop, merkle_climb]
      exact ih (j + 1) _

/-- C1 counterexample: a depth-1 proof whose hash chain does end at the
root (the root is defined as the chain value for path `2 ^ 1 + tx-index`),
but with `tx-index = 2 ^ 128 - 2` the 128-bit path addition overflows and
the contract aborts (`none`) instead of returning `true` as the claim
demands. -/
theorem verify_merkle_proof_chain_overflow_cex :
    verify_merkle_proof testHash exBuf32 exRootOvf (2 ^ 128 - 2) [exSib1] = none := by
  decide

/-- C1 (amended with the tx-index bound `2 ^ d + tx-index < 2 ^ 128`, the
claim is otherwise unchanged): for `d = len hashes` with `1 ≤ d ≤ 14`,
`verify-merkle-proof` returns `true` exactly when the chain
`h_0 = leaf`, `h_(i+1) = hash256 (h_i ++ hashes[i])` for bit `i` of
`path = 2 ^ d + tx-index` clear and `hash256 (hashes[i] ++ h_i)` for bit
`i` set, consumes all `d` hashes and ends at the root. -/
theorem verify_merkle_proof_iff_chain (sha256 : List Nat → List Nat)
    (leaf root : List Nat) (t : Nat) (hashes : List (List Nat))
    (h1 : 1 ≤ hashes.length) (h14 : hashes.length ≤ 14)
    (hov : 2 ^ hashes.length + t < 2 ^ 128) :
    verify_merkle_proof sha256 leaf root t hashes = some true ↔
      merkle_climb sha256 (2 ^ hashes.length + t) leaf hashes 0 = root := by
  rw [verify_merkle_proof_eq_climb sha256 leaf root t hashes h1 h14 hov]
  simp

/-- C1 witness: the amended claim instantiated at the concrete depth-2
fixture. -/
theorem verify_merkle_proof_iff_chain_w :
    (verify_merkle_proof testHash exBuf32 exRoot2 0 [exSib1, exSib2] = some true ↔
      merkle_climb testHash (2 ^ [exSib1, exSib2].length + 0) exBuf32
        [exSib1, exSib2] 0 = exRoot2) :=
  verify_merkle_proof_iff_chain testHash exBuf32 exRoot2 0 [exSib1, exSib2]
    (by decide) (by decide) (by decide)

/-- C2: evaluating the code at a truncated proof.  `exRoot2` is the root of
a depth-2 chain from `exBuf32`; the full two-hash proof verifies, while the
proof truncated to one hash returns the plain boolean `false` — the
function's value space (`Option Bool`) has no error alternative at all, so
the documented `(err ERR-PROOF-TOO-SHORT)` (err u8) can never be
produced. -/
theorem verify_merkle_proof_truncated_eval :
    verify_merkle_proof testHash exBuf32 exRoot2 0 [exSib1] = some false ∧
    verify_merkle_proof testHash exBuf32 exRoot2 0 [exSib1, exSib2] = some true := by
  decide

/-- C3 counterexample: with an empty sibling list and the leaf equal to the
root the contract returns `false`, where the claim says `true`. -/
theorem verify_merkle_proof_depth0_cex :
    verify_merkle_proof testHash exBuf32 exBuf32 0 [] = some false := by
  decide

/-- C3 (amended): with an empty sibling list (depth 0) `verify-merkle-proof`
returns `false` for every leaf and root — also when leaf and root are
equal — performing no hashing; the fold body never runs, so the initial
`verified: false` is returned unchanged. -/
theorem verify_merkle_proof_depth0_false (sha256 : List Nat → List Nat)
    (leaf root : List Nat) (t : Nat) (hov : 1 + t < 2 ^ 128) :
    verify_merkle_proof sha256 leaf root t [] = some false :=
  verify_merkle_proof_empty_aux sha256 leaf root t hov

/-- C3 witness: the amended claim at a concrete depth-0 proof. -/
theorem verify_merkle_proof_depth0_false_w :
    verify_merkle_proof testHash exBuf32 exSib1 3 [] = some false :=
  verify_merkle_proof_depth0_false testHash exBuf32 exSib1 3 (by decide)

/-- C8 counterexample: at depth 0 with leaf equal to root the contract's
fold returns `false` while the spec's explicit reference loop returns
`true`, so the two are not observationally equal on every input. -/
theorem verify_merkle_refinement_cex :
    verify_merkle_proof testHash exSib2 exSib2 0 [] = some false ∧
    verify_merkle_proof_ref testHash exSib2 exSib2 0 [] = true := by
  decide

/-- C8 (amended to nonempty proofs with a non-overflowing path addition):
the contract's fold with the encoded bit-path integer and the spec's
explicit loop over `(sibling, is_left)` pairs derived from the leaf index
produce the same outcome. -/
theorem verify_merkle_refinement (sha256 : List Nat → List Nat)
    (leaf root : List Nat) (li : Nat) (hashes : List (List Nat))
    (h1 : 1 ≤ hashes.length) (h14 : hashes.length ≤ 14)
    (hov : 2 ^ hashes.length + li < 2 ^ 128) :
    verify_merkle_proof sha256 leaf root li hashes =
      some (verify_merkle_proof_ref sha256 leaf root li hashes) := by
  rw [verify_merkle_proof_eq_climb sha256 leaf root li hashes h1 h14 hov,
    verify_merkle_proof_ref, ref_loop_eq_climb sha256 root li hashes 0 leaf]
  congr 1
  rw [merkle_climb_congr sha256 (2 ^ hashes.length + li) li hashes 0 leaf
    (fun i _ hi => Nat.testBit_two_pow_add_gt (by omega) li)]

/-- C8 witness: fold and reference loop agree on the concrete depth-2
fixture. -/
theorem verify_merkle_refinement_w :
    verify_merkle_proof testHash exBuf32 exRoot2 1 [exSib1, exSib2] =
      some (verify_merkle_proof_ref testHash exBuf32 exRoot2 1 [exSib1, exSib2]) :=
  verify_merkle_refinement testHash exBuf32 exRoot2 1 [exSib1, exSib2]
    (by decide) (by decide) (by decide)

/-- C9 counterexample: with an empty hash list, `tx-index = 2 ^ 128 - 1`
makes the path addition overflow, so the call aborts (`none`), while at
`tx-index mod 2 ^ 0 = 0` it returns `some false`; the two results differ,
refuting the claimed equality for every index. -/
theorem verify_merkle_proof_mod_cex :
    verify_merkle_proof testHash exSib1 exSib1 (2 ^ 128 - 1) [] = none ∧
    verify_merkle_proof testHash exSib1 exSib1 ((2 ^ 128 - 1) % 2 ^ 0) [] = some false := by
  decide

/-- C9 (amended with the no-overflow bound `2 ^ d + tx-index < 2 ^ 128`):
the result of `verify-merkle-proof` depends on the tx-index only through
its residue modulo `2 ^ len hashes`; in particular an out-of-range but
non-overflowing tx-index is not rejected. -/
theorem verify_merkle_proof_mod (sha256 : List Nat → List Nat)
    (leaf root : List Nat) (t : Nat) (hashes : List (List Nat))
    (h14 : hashes.length ≤ 14) (hov : 2 ^ hashes.length + t < 2 ^ 128) :
    verify_merkle_proof sha256 leaf root t hashes =
      verify_merkle_proof sha256 leaf root (t % 2 ^ hashes.length) hashes := by
  rcases Nat.eq_zero_or_pos hashes.length with h0 | hpos
  · have hnil : hashes = [] := List.length_eq_zero.mp h0
    subst hnil
    have hov' : 1 + t < 2 ^ 128 := by simpa using hov
    rw [verify_merkle_proof_empty_aux sha256 leaf root t hov',
      verify_merkle_proof_empty_aux sha256 leaf root _ (by simp; omega)]
  · have hm : t % 2 ^ hashes.length ≤ t := Nat.mod_le t _
    have hov2 : 2 ^ hashes.length + t % 2 ^ hashes.length < 2 ^ 128 := by omega
    rw [verify_merkle_proof_eq_climb sha256 leaf root t hashes hpos h14 hov,
      verify_merkle_proof_eq_climb sha256 leaf root _ hashes hpos h14 hov2]
    congr 1
    rw [merkle_climb_congr sha256 (2 ^ hashes.length + t)
      (2 ^ hashes.length + t % 2 ^ hashes.length) hashes 0 leaf ?bits]
    case bits =>
      intro i _ hi
      rw [Nat.testBit_two_pow_add_gt (by omega) t,
        Nat.testBit_two_pow_add_gt (by omega) (t % 2 ^ hashes.length),
        Nat.testBit_mod_two_pow]
      simp [show i < hashes.length from by omega]

/-- C9 witness: the amended claim at the concrete depth-2 fixture with the
out-of-range index 6 (`6 mod 4 = 2`). -/
theorem verify_merkle_proof_mod_w :
    verify_merkle_proof testHash exBuf32 exRoot2 6 [exSib1, exSib2] =
      verify_merkle_proof testHash exBuf32 exRoot2 (6 % 2 ^ 2) [exSib1, exSib2] :=
  verify_merkle_proof_mod testHash exBuf32 exRoot2 6 [exSib1, exSib2]
    (by decide) (by decide)

/-- The big-endian image always has 16 bytes. -/
theorem uint_to_be16_length (n : Nat) : (uint_to_be16 n).length = 16 := by
  simp [uint_to_be16]

/-- `reverse-buff16` never aborts: the consensus buffer always has 17
bytes, so the `slice?` succeeds on any input. -/
theorem reverse_buff16_always (x : List Nat) :
    reverse_buff16 x = some (uint_to_be16 (buff_to_uint_le x)) := by
  rw [reverse_buff16, to_consensus_buff_uint, slice,
    if_pos (by simp [uint_to_be16])]
  have hl : (uint_to_be16 (buff_to_uint_le x)).length ≤ 16 := by
    simp [uint_to_be16]
  simp [List.take_of_length_le hl]

/-- On an input of at least 32 bytes `reverse-buff32` succeeds, producing
the two reversed 16-byte halves in swapped order. -/
theorem reverse_buff32_of_length (l : List Nat) (hlen : 32 ≤ l.length) :
    reverse_buff32 l = some (uint_to_be16 (buff_to_uint_le ((l.drop 16).take 16)) ++
      uint_to_be16 (buff_to_uint_le (l.take 16))) := by
  have h1 : slice l 16 32 = some ((l.drop 16).take 16) := by
    rw [slice, if_pos (by omega)]
  have h2 : slice l 0 16 = some (l.take 16) := by
    rw [slice, if_pos (by omega)]
    simp
  have e1 : as_max_len ((l.drop 16).take 16) 16 = some ((l.drop 16).take 16) := by
    rw [as_max_len, if_pos (by simp [List.length_take])]
  have e2 : as_max_len (l.take 16) 16 = some (l.take 16) := by
    rw [as_max_len, if_pos (by simp [List.length_take])]
  have r1 := reverse_buff16_always ((l.drop 16).take 16)
  have r2 := reverse_buff16_always (l.take 16)
  have e5 : as_max_len (uint_to_be16 (buff_to_uint_le ((l.drop 16).take 16)) ++
      uint_to_be16 (buff_to_uint_le (l.take 16))) 32 =
      some (uint_to_be16 (buff_to_uint_le ((l.drop 16).take 16)) ++
        uint_to_be16 (buff_to_uint_le (l.take 16))) := by
    rw [as_max_len, if_pos (by simp [uint_to_be16])]
  simp only [reverse_buff32, h1, h2, e1, e2, r1, r2, e5, Option.bind_eq_bind,
    Option.some_bind]

/-- A `verify-merkle-proof` call with a type-respecting hash list and a
non-overflowing path addition always returns a boolean. -/
theorem verify_merkle_proof_isSome (sha256 : List Nat → List Nat)
    (a b : List Nat) (t : Nat) (hashes : List (List Nat))
    (h14 : hashes.length ≤ 14) (hov : 2 ^ hashes.length + t < 2 ^ 128) :
    ∃ v, verify_merkle_proof sha256 a b t hashes = some v := by
  rcases Nat.eq_zero_or_pos hashes.length with h0 | hpos
  · have hnil : hashes = [] := List.length_eq_zero.mp h0
    subst hnil
    exact ⟨false, verify_merkle_proof_empty_aux sha256 a b t (by simpa using hov)⟩
  · exact ⟨_, verify_merkle_proof_eq_climb sha256 a b t hashes hpos h14 hov⟩

/-- C4: for every 80-byte header and height carrying a recorded hash,
`verify-block-header` returns `true` exactly when
`reverse-buff32 (sha256 (sha256 header))` equals the recorded hash. -/
theorem verify_block_header_iff (sha256 : List Nat → List Nat)
    (hh : Nat → Option (List Nat)) (header : List Nat) (h : Nat) (rec : List Nat)
    (h80 : header.length = 80) (hrec : hh h = some rec) :
    verify_block_header sha256 hh header h = some true ↔
      reverse_buff32 (sha256 (sha256 header)) = some rec := by
  rw [verify_block_header]
  cases hr : reverse_buff32 (sha256 (sha256 header)) with
  | none => simp [hr]
  | some rh => simp [hr, get_burn_block_header_hash, hrec, eq_comm]

/-- C4 witness: the recorded-hash equivalence at the concrete header
fixture, whose store records `exRec` at height 5. -/
theorem verify_block_header_iff_w :
    (verify_block_header testHash exStore exHeader80 5 = some true ↔
      reverse_buff32 (testHash (testHash exHeader80)) = some exRec) :=
  verify_block_header_iff testHash exStore exHeader80 5 exRec (by decide) (by decide)

/-- C6: for every 80-byte header and every height with no recorded hash,
`verify-block-header` returns the plain boolean `false` — not an error and
not an abort. -/
theorem verify_block_header_unrecorded (sha256 : List Nat → List Nat)
    (hh : Nat → Option (List Nat)) (header : List Nat) (h : Nat)
    (hsha : ∀ l, (sha256 l).length = 32)
    (h80 : header.length = 80) (hmiss : hh h = none) :
    verify_block_header sha256 hh header h = some false := by
  rw [verify_block_header,
    reverse_buff32_of_length (sha256 (sha256 header)) (by simp [hsha])]
  simp [get_burn_block_header_hash, hmiss]

/-- C6 witness: an empty store yields `some false` at the concrete
header. -/
theorem verify_block_header_unrecorded_w :
    verify_block_header testHash (fun _ => none) exHeader80 9 = some false :=
  verify_block_header_unrecorded testHash (fun _ => none) exHeader80 9
    testHash_length (by decide) rfl

/-- C5 counterexample: a zero-byte txid is accepted by the `(buff 32)`
type, the header is 80 bytes and matches its recorded hash, yet the call
aborts (`none`) inside `reverse-buff32` instead of reaching the
`err u7 / ok true` alternative the claim describes for this case. -/
theorem was_txid_mined_short_txid_cex :
    was_txid_mined testHash exStoreHdr 0 [] exHeader80 0 [exSib1] = none := by
  decide

/-- C5 (amended to full 32-byte txids and non-overflowing path additions;
shorter txids or overflowing additions abort the call instead): the checks
run in the claimed order — `err u9` when the header has fewer than 68
bytes, otherwise `err u6` when the header does not match the recorded
hash, otherwise `err u7` when the Merkle proof fails on the reversed txid
and the root bytes `[36, 68)` of the header, otherwise `(ok true)`. -/
theorem was_txid_mined_order (sha256 : List Nat → List Nat)
    (hh : Nat → Option (List Nat)) (height : Nat) (txid header : List Nat)
    (t : Nat) (hashes : List (List Nat))
    (hsha : ∀ l, (sha256 l).length = 32)
    (htx : txid.length = 32) (htxb : ∀ b ∈ txid, b < 256)
    (h14 : hashes.length ≤ 14) (hov : 2 ^ hashes.length + t < 2 ^ 128) :
    was_txid_mined sha256 hh height txid header t hashes =
      if header.length < 68 then some (Response.err 9)
      else if verify_block_header sha256 hh header height = some false then
        some (Response.err 6)
      else if verify_merkle_proof sha256 txid.reverse ((header.drop 36).take 32)
          t hashes = some false then
        some (Response.err 7)
      else some (Response.ok true) := by
  by_cases h9 : header.length < 68
  · have hs : slice header 36 68 = none := by
      rw [slice, if_neg (by omega)]
    simp [was_txid_mined, hs, h9]
  · have hs : slice header 36 68 = some ((header.drop 36).take 32) := by
      rw [slice, if_pos (by omega)]
    have hm : as_max_len ((header.drop 36).take 32) 32 =
        some ((header.drop 36).take 32) := by
      rw [as_max_len, if_pos (by simp [List.length_take])]
    obtain ⟨vb, hvb⟩ : ∃ vb, verify_block_header sha256 hh header height = some vb := by
      rw [verify_block_header,
        reverse_buff32_of_length (sha256 (sha256 header)) (by simp [hsha])]
      exact ⟨_, rfl⟩
    cases vb with
    | false => simp [was_txid_mined, hs, hm, hvb, h9]
    | true =>
        have hrt : reverse_buff32 txid = some txid.reverse :=
          reverse_buff32_eq txid htx htxb
        obtain ⟨vm, hvm⟩ := verify_merkle_proof_isSome sha256 txid.reverse
          ((header.drop 36).take 32) t hashes h14 hov
        cases vm with
        | false => simp [was_txid_mined, hs, hm, hvb, hrt, hvm, h9]
        | true => simp [was_txid_mined, hs, hm, hvb, hrt, hvm, h9]

/-- C5 witness: the amended check order at a concrete input that reaches
the `err u7` branch (matching header, failing proof). -/
theorem was_txid_mined_order_w :
    was_txid_mined testHash exStoreHdr 0 exBuf32 exHeader80 0 [exSib1] =
      (if exHeader80.length < 68 then some (Response.err 9)
       else if verify_block_header testHash exStoreHdr exHeader80 0 = some false then
         some (Response.err 6)
       else if verify_merkle_proof testHash exBuf32.reverse
           ((exHeader80.drop 36).take 32) 0 [exSib1] = some false then
         some (Response.err 7)
       else some (Response.ok true)) :=
  was_txid_mined_order testHash exStoreHdr 0 exBuf32 exHeader80 0 [exSib1]
    testHash_length (by decide) (by decide) (by decide) (by decide)

/-- C10: `was-txid-mined` either aborts or returns one of `(ok true)`,
`err u6`, `err u7`, `err u9`; in particular it never returns `(ok false)`
and never `err u8` (ERR-PROOF-TOO-SHORT). -/
theorem was_txid_mined_outcomes (sha256 : List Nat → List Nat)
    (hh : Nat → Option (List Nat)) (height : Nat) (txid header : List Nat)
    (t : Nat) (hashes : List (List Nat)) :
    was_txid_mined sha256 hh height txid header t hashes = none ∨
    was_txid_mined sha256 hh height txid header t hashes = some (Response.ok true) ∨
    was_txid_mined sha256 hh height txid header t hashes = some (Response.err 6) ∨
    was_txid_mined sha256 hh height txid header t hashes = some (Response.err 7) ∨
    was_txid_mined sha256 hh height txid header t hashes = some (Response.err 9) := by
  unfold was_txid_mined
  split
  · simp
  · split
    · simp
    · split
      · simp
      · split
        · simp
        · split
          · simp
          · split
            · simp
            · split
              · simp
              · simp

end ClarityBtc



